import Mathlib

/-!
Verification of the mimir experiment-logging library (bartvm/mimir).

This file gives a shallow embedding of the core of the library:

* the Dispatcher (`_Logger.log` in `mimir/logger.py`),
* the Streaming Publisher (`ServerHandler` / `PersistentServerHandler`
  in `mimir/handlers.py`),
* the Snapshot Manager (`state_manager` in `mimir/handlers.py`),
* the Aggregation Broker (`_server_logger` in `mimir/remote.py`),
* the client replay helper (`get_snapshot` in `mimir/stream.py`),
* the numeric-array serialization pair (`serialize_numpy` /
  `deserialize_numpy` in `mimir/serialization.py`),

and proves or refutes the specification claims about them.
-/

namespace Mimir

/-! ## JSON values and entries

A log entry is a Python dict mapping string keys to JSON-compatible
values.  `jbad` models a Python object that has no defined wire
encoding, so that `json.dumps` (whose `default=serialize_numpy`
fallback raises `TypeError` on such objects) fails exactly when a
`jbad` occurs somewhere in the value.  Numeric JSON values are modelled
by `Int`. -/

inductive JVal : Type where
  | jnull : JVal
  | jbool : Bool → JVal
  | jint : Int → JVal
  | jstr : String → JVal
  | jarr : List JVal → JVal
  | jobj : List (String × JVal) → JVal
  | jbad : JVal
deriving Repr

/-- An entry is an ordered mapping from string keys to values
(a Python dict, insertion ordered). -/
abbrev Entry := List (String × JVal)

mutual

/-- Whether a value has a defined wire encoding (`json.dumps` succeeds). -/
def JVal.serializable : JVal → Bool
  | .jnull => true
  | .jbool _ => true
  | .jint _ => true
  | .jstr _ => true
  | .jarr xs => serializableList xs
  | .jobj fs => serializableFields fs
  | .jbad => false

def serializableList : List JVal → Bool
  | [] => true
  | x :: xs => x.serializable && serializableList xs

def serializableFields : List (String × JVal) → Bool
  | [] => true
  | kv :: fs => kv.2.serializable && serializableFields fs

end

/-- Python dict assignment `e[k] = v`: replace the value at an existing
key in place, otherwise append the new binding at the end. -/
def dictSet (e : Entry) (k : String) (v : JVal) : Entry :=
  if e.any (fun kv => kv.1 = k) then
    e.map (fun kv => if kv.1 = k then (k, v) else kv)
  else e ++ [(k, v)]

/-- Association-list lookup, modelling Python dict read access. -/
def lookupKey {κ α : Type _} [DecidableEq κ] (k : κ) : List (κ × α) → Option α
  | [] => none
  | kv :: rest => if kv.1 = k then some kv.2 else lookupKey k rest

/-! ## Bounded deques: `collections.deque` with a `maxlen` bound

`deque(maxlen=m)` drops the oldest element when an append overflows the
bound; `maxlen=None` (here `none`) is unbounded. -/

/-- Appending to a bounded `deque`: FIFO eviction at capacity. -/
def dequeAppend {α : Type _} (maxlen : Option Nat) (xs : List α) (x : α) : List α :=
  match maxlen with
  | none => xs ++ [x]
  | some m =>
    let ys := xs ++ [x]
    ys.drop (ys.length - m)

/-! ## Handlers and the Dispatcher (`mimir/logger.py`, `mimir/handlers.py`)

Filter functions are referenced by numeric id; an environment
`fenv : Nat → Entry → Entry` supplies their meaning.  Python builds the
memoization key `frozenset(handler.filters)`, which we model as the
`Finset` of the ids. -/

/-- A handler: its filter list and its `JSON` class attribute
(whether it wants the wire-serialized form of the entry). -/
structure Handler where
  filters : List Nat
  JSON : Bool
deriving Repr

/-- Method filter of class Handler, from `mimir/handlers.py` (lines 42-44):

```
def filter(self, entry):
    for filter in self.filters:
        entry = filter(entry)
```

The loop rebinds the local variable `entry` but the method has no
`return` statement, so it returns Python `None` (here `none`)
regardless of the filters. -/
def Handler.filter (fenv : Nat → Entry → Entry) (h : Handler) (entry : Entry) :
    Option Entry :=
  let _ := h.filters.foldl (fun e i => fenv i e) entry
  none

/-- What the filter chain would produce if `Handler.filter` returned its
loop variable: the filters applied in order. -/
def chainApply (fenv : Nat → Entry → Entry) (fs : List Nat) (entry : Entry) : Entry :=
  fs.foldl (fun e i => fenv i e) entry

/-- The denotation of a `json.dumps` result.  The argument is the
Python object to serialize (`none` is Python `None`).  `json.dumps`
succeeds on `None` (producing the text `null`); on a dict it raises
`TypeError` iff some value has no wire encoding.  The resulting wire
text is modelled by the object it denotes (the encoding is injective). -/
def dumps : Option Entry → Option (Option Entry)
  | none => some none
  | some e => if serializableFields e then some (some e) else none

/-- What a handler's `log` method is invoked with. -/
inductive Payload : Type where
  | raw : Option Entry → Payload
  | wire : Option Entry → Payload
deriving Repr

/-- Lines 186-194 of `mimir/logger.py`, for one handler: compute the
filter-set key; when it is non-empty (`if filters:`), apply the
handler's filters through the per-call cache `filtered_entries`,
otherwise the filtered entry is the entry itself.  Returns the filtered
entry and the updated cache. -/
def filterPhase (fenv : Nat → Entry → Entry) (entry : Entry) (h : Handler)
    (fcache : List (Finset Nat × Option Entry)) :
    Option Entry × List (Finset Nat × Option Entry) :=
  let key : Finset Nat := h.filters.toFinset
  if key = ∅ then (some entry, fcache)
  else
    match lookupKey key fcache with
    | some fe => (fe, fcache)
    | none => (Handler.filter fenv h entry, (key, Handler.filter fenv h entry) :: fcache)

/-- The handler loop of `_Logger.log` (`mimir/logger.py` lines 183-204).
Processes the handlers in registration order (paired with their index),
threading the per-call caches `filtered_entries` and
`serialized_entries`, both keyed by the filter set.  Returns the list
of (handler index, payload) deliveries in invocation order, and whether
a serialization `TypeError` was raised (aborting the loop). -/
def runHandlers (fenv : Nat → Entry → Entry) (entry : Entry) :
    List (Nat × Handler) → List (Finset Nat × Option Entry) →
    List (Finset Nat × Option Entry) → List (Nat × Payload) × Bool
  | [], _, _ => ([], false)
  | ih :: rest, fcache, scache =>
    let fres := filterPhase fenv entry ih.2 fcache
    if ih.2.JSON then
      match lookupKey ih.2.filters.toFinset scache with
      | some se =>
        let rec2 := runHandlers fenv entry rest fres.2 scache
        ((ih.1, Payload.wire se) :: rec2.1, rec2.2)
      | none =>
        match dumps fres.1 with
        | none => ([], true)
        | some se =>
          let rec2 := runHandlers fenv entry rest fres.2
            ((ih.2.filters.toFinset, se) :: scache)
          ((ih.1, Payload.wire se) :: rec2.1, rec2.2)
    else
      let rec2 := runHandlers fenv entry rest fres.2 scache
      ((ih.1, Payload.raw fres.1) :: rec2.1, rec2.2)

/-- The state of a `_Logger`: its retention bound, the retention deque
`_entries`, and the registered handlers. -/
structure LoggerState where
  maxlen : Option Nat
  entries : List Entry
  handlers : List Handler
deriving Repr

namespace Logger

/-- Method log of `_Logger` (`mimir/logger.py` lines 179-204): append the entry to
the retention deque, then run the handler loop.  Returns the new state,
the deliveries made, and whether a serialization error was raised to
the caller. -/
def log (fenv : Nat → Entry → Entry) (st : LoggerState) (entry : Entry) :
    LoggerState × List (Nat × Payload) × Bool :=
  let st2 := { st with entries := dequeAppend st.maxlen st.entries entry }
  let res := runHandlers fenv entry st.handlers.enum [] []
  (st2, res.1, res.2)

/-- Method getitem of `_Logger`: deque indexing with Python semantics
(negative indices from the end, `IndexError` modelled as `none`). -/
def getItem (st : LoggerState) (k : Int) : Option Entry :=
  let n : Int := st.entries.length
  if 0 ≤ k ∧ k < n then st.entries.get? k.toNat
  else if -n ≤ k ∧ k < 0 then st.entries.get? (n + k).toNat
  else none

/-- A sequence of `log` calls.  A raised serialization error propagates
to the caller, so later calls do not happen. -/
def logMany (fenv : Nat → Entry → Entry) :
    LoggerState → List Entry → LoggerState × List (List (Nat × Payload) × Bool)
  | st, [] => (st, [])
  | st, e :: es =>
    let res := log fenv st e
    if res.2.2 then (res.1, [(res.2.1, true)])
    else
      let rest := logMany fenv res.1 es
      (rest.1, (res.2.1, false) :: rest.2)

end Logger

/-! ## Streaming Publisher (`ServerHandler`, `mimir/handlers.py` lines 145-212)

The handler state is its `sequence` counter (`0` on construction).
`log` increments it and sends a two-part message: the decimal string
form of the counter, then the wire-serialized entry. -/

/-- One `ServerHandler.log` call: given the current `sequence` counter
and the serialized entry, return the new counter and the published
two-part message. -/
def ServerHandler.log (sequence : Nat) (entry : String) : Nat × (String × String) :=
  let seq := sequence + 1
  (seq, (toString seq, entry))

/-- A run of `ServerHandler.log` calls, returning the final counter and
the published messages in order. -/
def ServerHandler.run : Nat → List String → Nat × List (String × String)
  | sequence, [] => (sequence, [])
  | sequence, e :: es =>
    let st2 := ServerHandler.log sequence e
    let rest := ServerHandler.run st2.1 es
    (rest.1, st2.2 :: rest.2)

/-- One `PersistentServerHandler.log` call (lines 207-212): increment
once, publish on the PUB socket and forward the same message to the
manager thread over the update pipe. -/
def PersistentServerHandler.log (sequence : Nat) (entry : String) :
    Nat × (String × String) × (String × String) :=
  let st2 := ServerHandler.log sequence entry
  (st2.1, st2.2, st2.2)

/-! ## Snapshot Manager (`state_manager`, `mimir/handlers.py` lines 215-266)

The worker owns the bounded `store` deque of (sequence, serialized
entry) pairs and multiplexes two event sources: updates from the pipe
and snapshot requests on the ROUTER socket.  Sequence numbers arrive as
`int(...)`, so they are `Int` here; the reserved terminal marker is
`-1`. -/

/-- An event seen by the manager loop. -/
inductive ManagerEvent : Type where
  | update : Int → String → ManagerEvent
  | request : String → String → ManagerEvent
deriving Repr

/-- A message sent on the snapshot ROUTER socket:
requester identity, sequence-number frame, entry frame. -/
structure SnapMsg : Type where
  client : String
  sequence : Int
  payload : String
deriving Repr

/-- The manager's state: the store and the messages sent so far. -/
structure ManagerState : Type where
  store : List (Int × String)
  sent : List SnapMsg
deriving Repr

/-- One iteration body of the `state_manager` loop.  An update is
appended to the bounded store.  A request must carry the literal body
`"ICANHAZ?"` (the `assert` on line 256); any other body fails the
assertion, killing the worker thread (`none`).  A valid request is
answered with every buffered pair in order, then the terminal message
`[client, "-1", b'""']`. -/
def managerStep (maxlen : Option Nat) (st : ManagerState) :
    ManagerEvent → Option ManagerState
  | .update sequence entry =>
    some { st with store := dequeAppend maxlen st.store (sequence, entry) }
  | .request client body =>
    if body = "ICANHAZ?" then
      some { st with
        sent := st.sent ++ st.store.map (fun kv => SnapMsg.mk client kv.1 kv.2)
                        ++ [SnapMsg.mk client (-1) "\"\""] }
    else none

/-- The manager loop over a finite event schedule.  The `Bool` records
whether the worker died on a failed assertion; from that point on no
further event is served. -/
def managerRun (maxlen : Option Nat) :
    ManagerState → List ManagerEvent → ManagerState × Bool
  | st, [] => (st, false)
  | st, ev :: rest =>
    match managerStep maxlen st ev with
    | none => (st, true)
    | some st2 => managerRun maxlen st2 rest

/-! ## Aggregation Broker (`_server_logger`, `mimir/remote.py` lines 10-50) -/

/-- The value recorded for a session: `msg[3].decode() or client_id`,
i.e. the caller-supplied name when non-empty, else the ordinal id. -/
inductive RemoteId : Type where
  | name : String → RemoteId
  | ordinal : Nat → RemoteId
deriving Repr, DecidableEq

/-- The JSON value injected under the `remote_log` key. -/
def RemoteId.toVal : RemoteId → JVal
  | .name s => .jstr s
  | .ordinal n => .jint n

/-- A reserved handshake token (`LOG_READY` / `LOG_ACK` / `LOG_DONE`);
the concrete byte values are opaque, only their distinctness matters. -/
inductive Token : Type where
  | READY : Token
  | ACK : Token
  | DONE : Token
deriving Repr, DecidableEq

/-- A message received by the broker's ROUTER socket, classified by the
comparisons on lines 35-44: the payload equals `LOG_READY` (with the
extra name frame `msg[3]`), equals `LOG_DONE`, or is anything else,
treated as a serialized entry. -/
inductive BrokerMsg : Type where
  | ready : String → String → BrokerMsg
  | done : String → BrokerMsg
  | entry : String → String → BrokerMsg
deriving Repr, DecidableEq

/-- The broker's state: the `client_id` counter, the `clients` dict
(insertion ordered), the entries forwarded to `logger.log` in order,
and the replies sent (identity, token). -/
structure BrokerState : Type where
  clientId : Nat
  clients : List (String × RemoteId)
  logged : List Entry
  replies : List (String × Token)
deriving Repr

/-- One iteration body of the `while clients:` loop, parametrized by
the JSON deserializer `lf` (`loads`).  `none` models a failed
`assert`. -/
def brokerStep (lf : String → Entry) (st : BrokerState) :
    BrokerMsg → Option BrokerState
  | .ready client nm =>
    match lookupKey client st.clients with
    | some _ => none
    | none =>
      let cid := st.clientId + 1
      let rid := if nm = "" then RemoteId.ordinal cid else RemoteId.name nm
      some { st with
        clientId := cid
        clients := st.clients ++ [(client, rid)]
        replies := st.replies ++ [(client, Token.READY)] }
  | .done client =>
    match lookupKey client st.clients with
    | none => none
    | some _ =>
      some { st with
        clients := st.clients.filter (fun kv => kv.1 ≠ client)
        replies := st.replies ++ [(client, Token.DONE)] }
  | .entry client payload =>
    match lookupKey client st.clients with
    | none => none
    | some rid =>
      some { st with
        logged := st.logged ++ [dictSet (lf payload) "remote_log" rid.toVal]
        replies := st.replies ++ [(client, Token.ACK)] }

/-- How the broker ends on a finite message schedule. -/
inductive BrokerOutcome : Type where
  /-- The `while clients:` loop exited; the remaining messages are
  never consumed. -/
  | finished : BrokerState → List BrokerMsg → BrokerOutcome
  /-- The broker is blocked in `recv_multipart` with no message left. -/
  | blocked : BrokerState → BrokerOutcome
  /-- An `assert` failed. -/
  | assertFailed : BrokerOutcome
deriving Repr

/-- The `while clients:` loop: exit as soon as the session dict is
empty, otherwise block for the next message and dispatch on it. -/
def brokerLoop (lf : String → Entry) : BrokerState → List BrokerMsg → BrokerOutcome
  | st, [] => if st.clients = [] then .finished st [] else .blocked st
  | st, m :: rest =>
    if st.clients = [] then .finished st (m :: rest)
    else
      match brokerStep lf st m with
      | none => .assertFailed
      | some st2 => brokerLoop lf st2 rest

/-- Function `_server_logger`: block for the first message, which must be a JOIN
(`assert request == LOG_READY`); record the first session with
`client_id = 1` and reply READY, then enter the loop. -/
def server_logger (lf : String → Entry) : List BrokerMsg → BrokerOutcome
  | [] => .blocked (BrokerState.mk 1 [] [] [])
  | .ready client nm :: rest =>
    let rid := if nm = "" then RemoteId.ordinal 1 else RemoteId.name nm
    brokerLoop lf (BrokerState.mk 1 [(client, rid)] [] [(client, Token.READY)]) rest
  | .done _ :: _ => .assertFailed
  | .entry _ _ :: _ => .assertFailed

/-- Folding `brokerStep` over a message prefix (`none` once an assert
fails). -/
def brokerSteps (lf : String → Entry) : BrokerState → List BrokerMsg → Option BrokerState
  | st, [] => some st
  | st, m :: rest =>
    match brokerStep lf st m with
    | none => none
    | some st2 => brokerSteps lf st2 rest

/-! ## Client replay (`get_snapshot`, `mimir/stream.py` lines 35-52) -/

/-- The receive loop of `get_snapshot`: starting from `sequence = 0`
and an empty entry list, read (sequence, entry) pairs; a negative
sequence ends the loop, otherwise the entry is appended and the
sequence recorded.  `none` models blocking forever on an exhausted
stream. -/
def getSnapshotLoop {α : Type _} :
    Int → List α → List (Int × α) → Option (Int × List α)
  | _, _, [] => none
  | sequence, entries, p :: rest =>
    if p.1 < 0 then some (sequence, entries)
    else getSnapshotLoop p.1 (entries ++ [p.2]) rest

/-- Function `get_snapshot` applied to the stream of replies it will receive. -/
def get_snapshot {α : Type _} (stream : List (Int × α)) : Option (Int × List α) :=
  getSnapshotLoop 0 [] stream

/-! ## Numeric-array serialization (`mimir/serialization.py`)

A contiguous array is its shape, its dtype descriptor, whether its
buffer is in Fortran (column-major) order, and the buffer contents in
memory order.  (`serialize_numpy` first copies an array that is neither
C- nor F-contiguous into C-contiguous form; such arrays therefore do
not arise here.)  The base64 codec is an external primitive: the
definitions are parametrized by the encode/decode pair, assumed
mutually inverse where needed. -/

structure NDArray (α : Type _) : Type _ where
  shape : List Nat
  descr : String
  fortran_order : Bool
  data : List α
deriving Repr

/-- The dict built by `serialize_numpy`: the `numpy.lib.format` header
fields plus the base64-encoded buffer under the reserved
`__ndarray__` key. -/
structure NpyDict (β : Type _) : Type _ where
  descr : String
  fortran_order : Bool
  shape : List Nat
  ndarray : β
deriving Repr

/-- Function `serialize_numpy` on a contiguous array: take the header data from
the array and attach the base64-encoded raw buffer. -/
def serialize_numpy {α β : Type _} (enc : List α → β) (a : NDArray α) : NpyDict β :=
  { descr := a.descr
    fortran_order := a.fortran_order
    shape := a.shape
    ndarray := enc a.data }

/-- Function `numpy.frombuffer`: a fresh 1-D (C-contiguous) array over the
decoded bytes. -/
def frombuffer {α : Type _} (descr : String) (data : List α) : NDArray α :=
  { shape := [data.length], descr := descr, fortran_order := false, data := data }

/-- In-place `obj.shape = s` on a contiguous array: reinterpret the
buffer under the new shape, keeping the memory order. -/
def NDArray.setShape {α : Type _} (a : NDArray α) (s : List Nat) : NDArray α :=
  { a with shape := s }

/-- Method transpose on a contiguous array: reverse the logical shape;
the buffer is untouched, so its memory order flips between row-major
and column-major with respect to the new shape. -/
def NDArray.transpose {α : Type _} (a : NDArray α) : NDArray α :=
  { a with shape := a.shape.reverse, fortran_order := !a.fortran_order }

/-- Function `deserialize_numpy`: decode the buffer, view it 1-D, then restore
the logical shape — directly for C order, via the reversed shape and a
transpose for Fortran order. -/
def deserialize_numpy {α β : Type _} (dec : β → List α) (dct : NpyDict β) : NDArray α :=
  let obj := frombuffer dct.descr (dec dct.ndarray)
  if dct.fortran_order then
    (obj.setShape dct.shape.reverse).transpose
  else
    obj.setShape dct.shape

/-- Row-major (C) offset of a multi-index in a shape. -/
def cOffset : List Nat → List Nat → Nat
  | _, [] => 0
  | [], _ => 0
  | _ :: shape, i :: idx => i * shape.foldl (fun a b => a * b) 1 + cOffset shape idx

/-- Element access: the buffer offset of a multi-index, using C or
Fortran strides according to the memory-order flag. -/
def NDArray.get {α : Type _} (a : NDArray α) (idx : List Nat) : Option α :=
  if a.fortran_order then a.data.get? (cOffset a.shape.reverse idx.reverse)
  else a.data.get? (cOffset a.shape idx)

/-! ## Shared lemmas -/

/-- Closed form of a bounded append. -/
theorem dequeAppend_some {α : Type _} (m : Nat) (xs : List α) (x : α) :
    dequeAppend (some m) xs x = (xs ++ [x]).drop (xs.length + 1 - m) := by
  simp [dequeAppend]

/-- Folding bounded appends over a list keeps exactly the most recent
`m` elements (FIFO eviction), provided the accumulator fits the bound. -/
theorem foldl_dequeAppend {α : Type _} (m : Nat) :
    ∀ (ps acc : List α), acc.length ≤ m →
      List.foldl (dequeAppend (some m)) acc ps =
        (acc ++ ps).drop (acc.length + ps.length - m)
  | [], acc, h => by
    simp [Nat.sub_eq_zero_of_le h]
  | x :: ps, acc, h => by
    have hlen : (dequeAppend (some m) acc x).length = acc.length + 1 - (acc.length + 1 - m) := by
      simp [dequeAppend]
    have hle : (dequeAppend (some m) acc x).length ≤ m := by omega
    have ih := foldl_dequeAppend m ps (dequeAppend (some m) acc x) hle
    rw [List.foldl_cons, ih, hlen, dequeAppend_some,
      ← @List.drop_append_of_le_length α (acc ++ [x]) ps (acc.length + 1 - m)
        (by simp [Nat.sub_le]),
      List.drop_drop]
    rw [show (acc ++ [x]) ++ ps = acc ++ x :: ps by simp]
    simp only [List.length_cons]
    congr 1
    omega

/-- A bounded deque filled from empty holds the last `min m N`
elements. -/
theorem foldl_dequeAppend_nil {α : Type _} (m : Nat) (ps : List α) :
    List.foldl (dequeAppend (some m)) [] ps = ps.drop (ps.length - m) := by
  simpa using foldl_dequeAppend m ps [] (by simp)

/-- The messages published by a run of `ServerHandler.log` calls pair
the successive counter values (in decimal form) with the entries. -/
theorem ServerHandler.run_snd (es : List String) :
    ∀ s : Nat, (ServerHandler.run s es).2 =
      ((List.range' (s + 1) es.length).map toString).zip es := by
  induction es with
  | nil => intro s; simp [ServerHandler.run]
  | cons e es ih =>
    intro s
    simp [ServerHandler.run, ServerHandler.log, List.range'_succ, ih (s + 1)]

/-- The counter after a run has advanced by the number of calls. -/
theorem ServerHandler.run_fst (es : List String) :
    ∀ s : Nat, (ServerHandler.run s es).1 = s + es.length := by
  induction es with
  | nil => intro s; simp [ServerHandler.run]
  | cons e es ih =>
    intro s
    simp [ServerHandler.run, ServerHandler.log, ih (s + 1)]
    omega

/-- C3.  A Streaming Publisher created with counter 0 emits sequence
number `i` on its `i`-th `log` call: over `N` calls the published
sequence-number frames are exactly the decimal forms of `1..N`, paired
with the entries in order, and `PersistentServerHandler.log` advances
the shared counter once, publishing the same sequence number on the
broadcast socket and on the internal update pipe. -/
theorem c3_sequence_numbers (es : List String) :
    (ServerHandler.run 0 es).2.map Prod.fst = (List.range' 1 es.length).map toString ∧
    (ServerHandler.run 0 es).2.map Prod.snd = es ∧
    (ServerHandler.run 0 es).1 = es.length ∧
    ∀ (s : Nat) (e : String),
      PersistentServerHandler.log s e = (s + 1, (toString (s + 1), e), (toString (s + 1), e)) := by
  refine ⟨?_, ?_, ?_, ?_⟩
  · rw [ServerHandler.run_snd]
    exact List.map_fst_zip _ _ (by simp)
  · rw [ServerHandler.run_snd]
    exact List.map_snd_zip _ _ (by simp)
  · simpa using ServerHandler.run_fst es 0
  · intro s e
    rfl

/-- Unfolding one iteration of the manager loop. -/
theorem managerRun_cons (maxlen : Option Nat) (st : ManagerState)
    (ev : ManagerEvent) (rest : List ManagerEvent) :
    managerRun maxlen st (ev :: rest) =
      match managerStep maxlen st ev with
      | none => (st, true)
      | some st2 => managerRun maxlen st2 rest := rfl

/-- Update events are consumed by appending to the bounded store. -/
theorem managerRun_updates (maxlen : Option Nat) (ps : List (Int × String)) :
    ∀ (st : ManagerState) (evs : List ManagerEvent),
      managerRun maxlen st (ps.map (fun p => ManagerEvent.update p.1 p.2) ++ evs) =
        managerRun maxlen
          { st with store := List.foldl (dequeAppend maxlen) st.store ps } evs := by
  induction ps with
  | nil => intro st evs; rfl
  | cons p ps ih =>
    intro st evs
    rw [List.map_cons, List.cons_append, managerRun_cons]
    show managerRun maxlen { st with store := dequeAppend maxlen st.store (p.1, p.2) }
        (ps.map (fun p => ManagerEvent.update p.1 p.2) ++ evs) = _
    rw [ih]
    rfl

/-- A successfully processed event prefix can be split off a run. -/
theorem managerRun_append (maxlen : Option Nat) :
    ∀ (pre : List ManagerEvent) (st st1 : ManagerState),
      managerRun maxlen st pre = (st1, false) →
      ∀ evs, managerRun maxlen st (pre ++ evs) = managerRun maxlen st1 evs
  | [], st, st1, h, evs => by
    have hst : st = st1 := congrArg Prod.fst h
    rw [List.nil_append, hst]
  | ev :: pre, st, st1, h, evs => by
    rw [List.cons_append, managerRun_cons]
    rw [managerRun_cons] at h
    cases hstep : managerStep maxlen st ev with
    | none =>
      exfalso
      rw [hstep] at h
      have h2 : true = false := congrArg Prod.snd h
      exact absurd h2 (by simp)
    | some st2 =>
      rw [hstep] at h
      exact managerRun_append maxlen pre st2 st1 h evs

/-- C4.  After the Snapshot Manager with history capacity `C` has
consumed `N` published (sequence, entry) pairs, a valid snapshot
request is answered with the buffered pairs in buffer order — exactly
the last `min C N` pairs, by FIFO eviction — followed by exactly one
terminal message carrying sequence number `-1` and the empty entry
payload; in particular with capacity 2 after three entries the reply is
the second and third pair then the terminal marker. -/
theorem c4_snapshot_reply (C : Nat) (ps : List (Int × String)) (client : String) :
    managerRun (some C) (ManagerState.mk [] [])
        (ps.map (fun p => ManagerEvent.update p.1 p.2)
          ++ [ManagerEvent.request client "ICANHAZ?"]) =
      (ManagerState.mk (ps.drop (ps.length - C))
        ((ps.drop (ps.length - C)).map (fun p => SnapMsg.mk client p.1 p.2)
          ++ [SnapMsg.mk client (-1) "\"\""]), false) ∧
    (ps.drop (ps.length - C)).length = min C ps.length ∧
    managerRun (some 2) (ManagerState.mk [] [])
        [ManagerEvent.update 1 "\x7b\"i\": 1\x7d", ManagerEvent.update 2 "\x7b\"i\": 2\x7d",
         ManagerEvent.update 3 "\x7b\"i\": 3\x7d",
         ManagerEvent.request client "ICANHAZ?"] =
      (ManagerState.mk [(2, "\x7b\"i\": 2\x7d"), (3, "\x7b\"i\": 3\x7d")]
        [SnapMsg.mk client 2 "\x7b\"i\": 2\x7d", SnapMsg.mk client 3 "\x7b\"i\": 3\x7d",
         SnapMsg.mk client (-1) "\"\""], false) := by
  refine ⟨?_, ?_, ?_⟩
  · rw [managerRun_updates, foldl_dequeAppend_nil]
    rfl
  · rw [List.length_drop]
    omega
  · rfl

/-- C7.  A snapshot request whose body is not the token `"ICANHAZ?"`
fails the worker's assertion: the worker dies on the spot, sends no
reply for the request, and serves none of the later events. -/
theorem c7_bad_request_fatal (maxlen : Option Nat) (pre : List ManagerEvent)
    (st0 st1 : ManagerState) (client body : String)
    (hpre : managerRun maxlen st0 pre = (st1, false))
    (hbody : body ≠ "ICANHAZ?") :
    ∀ post, managerRun maxlen st0 (pre ++ ManagerEvent.request client body :: post) =
      (st1, true) := by
  intro post
  rw [managerRun_append maxlen pre st0 st1 hpre]
  simp [managerRun, managerStep, hbody]

/-- Witness for C7 at a concrete bad request. -/
theorem c7_bad_request_fatal_witness :
    managerRun (some 5) (ManagerState.mk [] [])
      ([ManagerEvent.update 1 "e1"] ++
        ManagerEvent.request "c" "HELLO?" :: [ManagerEvent.update 2 "e2"]) =
      (ManagerState.mk [(1, "e1")] [], true) :=
  c7_bad_request_fatal (some 5) [ManagerEvent.update 1 "e1"]
    (ManagerState.mk [] []) (ManagerState.mk [(1, "e1")] []) "c" "HELLO?"
    rfl (by decide) [ManagerEvent.update 2 "e2"]

/-- Unfolding one iteration of the broker loop on a pending message. -/
theorem brokerLoop_cons (lf : String → Entry) (st : BrokerState)
    (m : BrokerMsg) (rest : List BrokerMsg) :
    brokerLoop lf st (m :: rest) =
      if st.clients = [] then .finished st (m :: rest)
      else
        match brokerStep lf st m with
        | none => .assertFailed
        | some st2 => brokerLoop lf st2 rest := rfl

/-- If the broker loop returned, it consumed precisely the shortest
prefix of the schedule that empties the session dict. -/
theorem brokerLoop_finished_iff (lf : String → Entry) :
    ∀ (msgs : List BrokerMsg) (st st2 : BrokerState) (rest : List BrokerMsg),
      brokerLoop lf st msgs = .finished st2 rest →
      ∃ k, k ≤ msgs.length ∧ rest = msgs.drop k ∧
        brokerSteps lf st (msgs.take k) = some st2 ∧ st2.clients = [] ∧
        ∀ j st3, j < k → brokerSteps lf st (msgs.take j) = some st3 →
          st3.clients ≠ [] := by
  intro msgs
  induction msgs with
  | nil =>
    intro st st2 rest h
    by_cases hc : st.clients = []
    · simp only [brokerLoop, if_pos hc] at h
      obtain ⟨h1, h2⟩ := BrokerOutcome.finished.inj h
      exact ⟨0, by simp, by simp [← h2], by simp [brokerSteps, h1], h1 ▸ hc, by omega⟩
    · simp [brokerLoop, if_neg hc] at h
  | cons m rest0 ih =>
    intro st st2 rest h
    rw [brokerLoop_cons] at h
    by_cases hc : st.clients = []
    · rw [if_pos hc] at h
      obtain ⟨h1, h2⟩ := BrokerOutcome.finished.inj h
      exact ⟨0, by simp, by simp [← h2], by simp [brokerSteps, h1], h1 ▸ hc, by omega⟩
    · rw [if_neg hc] at h
      cases hstep : brokerStep lf st m with
      | none => rw [hstep] at h; exact absurd h (by simp)
      | some stb =>
        rw [hstep] at h
        obtain ⟨k0, hk0, hrest, hsteps, hcl, hmin⟩ := ih stb st2 rest h
        refine ⟨k0 + 1, by simpa using hk0, by simpa using hrest, ?_, hcl, ?_⟩
        · simpa [brokerSteps, hstep] using hsteps
        · intro j st3 hj hst3
          match j with
          | 0 =>
            simp only [List.take_zero, brokerSteps, Option.some.injEq] at hst3
            rw [← hst3]
            exact hc
          | j0 + 1 =>
            have hst3b : brokerSteps lf stb (rest0.take j0) = some st3 := by
              simpa [brokerSteps, hstep] using hst3
            exact hmin j0 st3 (by omega) hst3b

/-- Conversely, as soon as some successfully processed prefix leaves
the session dict empty, the broker loop does return. -/
theorem brokerLoop_finishes (lf : String → Entry) :
    ∀ (msgs : List BrokerMsg) (k : Nat) (st st2 : BrokerState),
      brokerSteps lf st (msgs.take k) = some st2 → st2.clients = [] →
      ∃ st3 rest, brokerLoop lf st msgs = .finished st3 rest := by
  intro msgs
  induction msgs with
  | nil =>
    intro k st st2 hsteps hcl
    simp only [List.take_nil, brokerSteps, Option.some.injEq] at hsteps
    refine ⟨st, [], ?_⟩
    simp [brokerLoop, hsteps ▸ hcl]
  | cons m rest0 ih =>
    intro k st st2 hsteps hcl
    by_cases hc : st.clients = []
    · exact ⟨st, m :: rest0, by rw [brokerLoop_cons, if_pos hc]⟩
    · match k with
      | 0 =>
        simp only [List.take_zero, brokerSteps, Option.some.injEq] at hsteps
        exact absurd (hsteps ▸ hcl) hc
      | k0 + 1 =>
        rw [List.take_succ_cons] at hsteps
        rw [brokerLoop_cons, if_neg hc]
        cases hstep : brokerStep lf st m with
        | none => rw [brokerSteps, hstep] at hsteps; exact absurd hsteps (by simp)
        | some stb =>
          rw [brokerSteps, hstep] at hsteps
          exact ih k0 stb st2 hsteps hcl

/-- C5.  The Aggregation Broker's accept loop waits for at least one
JOIN before entering its loop — with no pending message it blocks, and
a first message other than READY fails the assertion, while a READY
records the session and enters the loop — and the loop terminates
exactly when the session dict becomes empty: a finished run consumed
precisely the shortest prefix of the schedule after which no session
remains, and once the last session is removed the loop does return. -/
theorem c5_broker_termination (lf : String → Entry) :
    (server_logger lf [] = .blocked (BrokerState.mk 1 [] [] []) ∧
     (∀ c rest, server_logger lf (BrokerMsg.done c :: rest) = .assertFailed) ∧
     (∀ c p rest, server_logger lf (BrokerMsg.entry c p :: rest) = .assertFailed) ∧
     (∀ c nm rest, server_logger lf (BrokerMsg.ready c nm :: rest) =
        brokerLoop lf
          (BrokerState.mk 1
            [(c, if nm = "" then RemoteId.ordinal 1 else RemoteId.name nm)]
            [] [(c, Token.READY)]) rest)) ∧
    (∀ (st st2 : BrokerState) (msgs rest : List BrokerMsg),
      brokerLoop lf st msgs = .finished st2 rest →
      ∃ k, k ≤ msgs.length ∧ rest = msgs.drop k ∧
        brokerSteps lf st (msgs.take k) = some st2 ∧ st2.clients = [] ∧
        ∀ j st3, j < k → brokerSteps lf st (msgs.take j) = some st3 →
          st3.clients ≠ []) ∧
    (∀ (st st2 : BrokerState) (msgs : List BrokerMsg) (k : Nat),
      brokerSteps lf st (msgs.take k) = some st2 → st2.clients = [] →
      ∃ st3 rest, brokerLoop lf st msgs = .finished st3 rest) :=
  ⟨⟨rfl, fun _ _ => rfl, fun _ _ _ => rfl, fun _ _ _ => rfl⟩,
   fun st st2 msgs rest h => brokerLoop_finished_iff lf msgs st st2 rest h,
   fun st st2 msgs k h1 h2 => brokerLoop_finishes lf msgs k st st2 h1 h2⟩

/-- Witness for C5: a concrete schedule JOIN(A), ENTRY(A), JOIN(B),
DONE(A), DONE(B) finishes, consuming the shortest session-emptying
prefix (all five messages). -/
theorem c5_broker_termination_witness :
    ∃ k, k ≤ 4 ∧
      ([] : List BrokerMsg) = ([BrokerMsg.entry "A" "p", BrokerMsg.ready "B" "",
        BrokerMsg.done "A", BrokerMsg.done "B"] : List BrokerMsg).drop k ∧
      brokerSteps (fun _ => ([] : Entry))
        (BrokerState.mk 1 [("A", RemoteId.ordinal 1)] [] [("A", Token.READY)])
        (([BrokerMsg.entry "A" "p", BrokerMsg.ready "B" "",
          BrokerMsg.done "A", BrokerMsg.done "B"] : List BrokerMsg).take k) =
        some (BrokerState.mk 2 []
          [[("remote_log", JVal.jint 1)]]
          [("A", Token.READY), ("A", Token.ACK), ("B", Token.READY),
           ("A", Token.DONE), ("B", Token.DONE)]) ∧
      (BrokerState.mk 2 []
          [[("remote_log", JVal.jint 1)]]
          [("A", Token.READY), ("A", Token.ACK), ("B", Token.READY),
           ("A", Token.DONE), ("B", Token.DONE)] : BrokerState).clients = [] ∧
      ∀ j st3, j < k →
        brokerSteps (fun _ => ([] : Entry))
          (BrokerState.mk 1 [("A", RemoteId.ordinal 1)] [] [("A", Token.READY)])
          (([BrokerMsg.entry "A" "p", BrokerMsg.ready "B" "",
            BrokerMsg.done "A", BrokerMsg.done "B"] : List BrokerMsg).take j) =
          some st3 →
        st3.clients ≠ [] :=
  (c5_broker_termination (fun _ => ([] : Entry))).2.1
    (BrokerState.mk 1 [("A", RemoteId.ordinal 1)] [] [("A", Token.READY)])
    (BrokerState.mk 2 []
      [[("remote_log", JVal.jint 1)]]
      [("A", Token.READY), ("A", Token.ACK), ("B", Token.READY),
       ("A", Token.DONE), ("B", Token.DONE)])
    [BrokerMsg.entry "A" "p", BrokerMsg.ready "B" "",
     BrokerMsg.done "A", BrokerMsg.done "B"] [] rfl

/-- C6.  A payload from a joined producer that is neither READY nor
DONE is deserialized, the field `remote_log` is set to the session's
recorded id, the entry is forwarded to the Dispatcher's `log`, and the
producer is sent the ACK token; and a JOIN records the caller-supplied
name when the handshake carried a non-empty one, else the next ordinal
id. -/
theorem c6_entry_forwarding (lf : String → Entry) (st : BrokerState)
    (client payload : String) (rid : RemoteId)
    (h : lookupKey client st.clients = some rid) :
    brokerStep lf st (BrokerMsg.entry client payload) =
      some { st with
        logged := st.logged ++ [dictSet (lf payload) "remote_log" rid.toVal]
        replies := st.replies ++ [(client, Token.ACK)] } ∧
    ∀ c nm, lookupKey c st.clients = none →
      brokerStep lf st (BrokerMsg.ready c nm) =
        some { st with
          clientId := st.clientId + 1
          clients := st.clients ++
            [(c, if nm = "" then RemoteId.ordinal (st.clientId + 1)
                 else RemoteId.name nm)]
          replies := st.replies ++ [(c, Token.READY)] } := by
  constructor
  · simp [brokerStep, h]
  · intro c nm hc
    simp [brokerStep, hc]

/-- Witness for C6: a concrete joined producer A with ordinal id 1
sends a payload; the broker forwards the entry tagged
`remote_log = 1` and replies ACK, and a JOIN from B with name "bob"
records that name. -/
theorem c6_entry_forwarding_witness :
    brokerStep (fun _ => ([] : Entry))
        (BrokerState.mk 1 [("A", RemoteId.ordinal 1)] [] [])
        (BrokerMsg.entry "A" "p") =
      some (BrokerState.mk 1 [("A", RemoteId.ordinal 1)]
        [[("remote_log", JVal.jint 1)]] [("A", Token.ACK)]) ∧
    brokerStep (fun _ => ([] : Entry))
        (BrokerState.mk 1 [("A", RemoteId.ordinal 1)] [] [])
        (BrokerMsg.ready "B" "bob") =
      some (BrokerState.mk 2
        [("A", RemoteId.ordinal 1), ("B", RemoteId.name "bob")] [] [("B", Token.READY)]) := by
  have h := c6_entry_forwarding (fun _ => ([] : Entry))
    (BrokerState.mk 1 [("A", RemoteId.ordinal 1)] [] [])
    "A" "p" (RemoteId.ordinal 1) rfl
  refine ⟨?_, ?_⟩
  · simpa [dictSet] using h.1
  · simpa using h.2 "B" "bob" rfl

/-- General form of the snapshot receive loop on a stream of
non-terminal pairs followed by a terminal pair. -/
theorem getSnapshotLoop_spec {α : Type _} :
    ∀ (ps : List (Int × α)) (s : Int) (acc : List α) (t : Int × α),
      t.1 < 0 → (∀ p ∈ ps, 0 ≤ p.1) →
      getSnapshotLoop s acc (ps ++ [t]) =
        some ((ps.map Prod.fst).getLastD s, acc ++ ps.map Prod.snd) := by
  intro ps
  induction ps with
  | nil =>
    intro s acc t ht _
    simp [getSnapshotLoop, ht]
  | cons p ps ih =>
    intro s acc t ht hpos
    have hp : 0 ≤ p.1 := hpos p (by simp)
    rw [List.cons_append, getSnapshotLoop, if_neg (by omega)]
    rw [ih p.1 (acc ++ [p.2]) t ht (fun q hq => hpos q (by simp [hq]))]
    rw [List.map_cons, List.map_cons, List.getLastD_cons]
    simp

/-- C8.  On a snapshot reply stream of non-terminal (sequence, entry)
pairs followed by the terminal pair with sequence −1, `get_snapshot`
returns the last non-terminal sequence number seen together with the
entries in receipt order; with an empty history (only the terminal
arrives) it returns sequence 0 and no entries. -/
theorem c8_get_snapshot {α : Type _} (ps : List (Int × α)) (x : α)
    (hpos : ∀ p ∈ ps, 0 ≤ p.1) :
    get_snapshot (ps ++ [(-1, x)]) =
      some ((ps.map Prod.fst).getLastD 0, ps.map Prod.snd) ∧
    get_snapshot ([(-1, x)] : List (Int × α)) = some (0, ([] : List α)) := by
  constructor
  · rw [get_snapshot, getSnapshotLoop_spec ps 0 [] ((-1 : Int), x) (by norm_num) hpos]
    simp
  · rfl

/-- Witness for C8 at a concrete reply stream. -/
theorem c8_get_snapshot_witness :
    get_snapshot ([((2 : Int), "a"), (3, "b")] ++ [(-1, "x")]) = some (3, ["a", "b"]) ∧
    get_snapshot ([(-1, "x")] : List (Int × String)) = some (0, ([] : List String)) := by
  have h := c8_get_snapshot [((2 : Int), "a"), (3, "b")] "x"
    (by intro p hp; fin_cases hp <;> norm_num)
  exact ⟨by simpa using h.1, h.2⟩

/-- C9.  Serializing a contiguous numeric array and deserializing it
restores the shape, the dtype descriptor, the memory order (a
Fortran-ordered buffer comes back Fortran-ordered via the
reversed-shape transpose), the buffer, and hence every element, as long
as the base64 codec is mutually inverse. -/
theorem c9_numpy_roundtrip {α β : Type _} (enc : List α → β) (dec : β → List α)
    (hinv : ∀ d, dec (enc d) = d) (a : NDArray α) :
    deserialize_numpy dec (serialize_numpy enc a) = a ∧
    (deserialize_numpy dec (serialize_numpy enc a)).shape = a.shape ∧
    (deserialize_numpy dec (serialize_numpy enc a)).descr = a.descr ∧
    (deserialize_numpy dec (serialize_numpy enc a)).fortran_order = a.fortran_order ∧
    (deserialize_numpy dec (serialize_numpy enc a)).data = a.data ∧
    ∀ idx, (deserialize_numpy dec (serialize_numpy enc a)).get idx = a.get idx := by
  have h : deserialize_numpy dec (serialize_numpy enc a) = a := by
    obtain ⟨shape, descr, fortran, data⟩ := a
    cases fortran <;>
      simp [deserialize_numpy, serialize_numpy, frombuffer,
        NDArray.setShape, NDArray.transpose, hinv]
  exact ⟨h, by rw [h], by rw [h], by rw [h], by rw [h], fun idx => by rw [h]⟩

/-- Witness for C9 at a concrete Fortran-ordered 2×3 array with the
identity codec. -/
theorem c9_numpy_roundtrip_witness :
    deserialize_numpy (fun d => d)
        (serialize_numpy (fun d => d)
          (NDArray.mk [2, 3] "<f8" true [1, 2, 3, 4, 5, 6])) =
      NDArray.mk [2, 3] "<f8" true [1, 2, 3, 4, 5, 6] :=
  (c9_numpy_roundtrip (fun d => d) (fun d => d) (fun _ => rfl)
    (NDArray.mk [2, 3] "<f8" true ([1, 2, 3, 4, 5, 6] : List Nat))).1

/-- Unfolding one handler of the dispatch loop. -/
theorem runHandlers_cons (fenv : Nat → Entry → Entry) (entry : Entry)
    (ih : Nat × Handler) (rest : List (Nat × Handler))
    (fcache scache : List (Finset Nat × Option Entry)) :
    runHandlers fenv entry (ih :: rest) fcache scache =
      (let fres := filterPhase fenv entry ih.2 fcache
       if ih.2.JSON then
        match lookupKey ih.2.filters.toFinset scache with
        | some se =>
          let rec2 := runHandlers fenv entry rest fres.2 scache
          ((ih.1, Payload.wire se) :: rec2.1, rec2.2)
        | none =>
          match dumps fres.1 with
          | none => ([], true)
          | some se =>
            let rec2 := runHandlers fenv entry rest fres.2
              ((ih.2.filters.toFinset, se) :: scache)
            ((ih.1, Payload.wire se) :: rec2.1, rec2.2)
       else
        let rec2 := runHandlers fenv entry rest fres.2 scache
        ((ih.1, Payload.raw fres.1) :: rec2.1, rec2.2)) := rfl

/-- Handlers with no filters that want raw entries each receive the
entry itself, and no error can arise. -/
theorem runHandlers_plain (fenv : Nat → Entry → Entry) (entry : Entry) :
    ∀ (L : List (Nat × Handler)) (fcache scache : List (Finset Nat × Option Entry)),
      (∀ ih ∈ L, ih.2.filters = [] ∧ ih.2.JSON = false) →
      runHandlers fenv entry L fcache scache =
        (L.map (fun ih => (ih.1, Payload.raw (some entry))), false)
  | [], _, _, _ => rfl
  | ih0 :: rest, fcache, scache, hall => by
    have h0 := hall ih0 (by simp)
    have hfp : filterPhase fenv entry ih0.2 fcache = (some entry, fcache) := by
      simp [filterPhase, h0.1]
    rw [runHandlers_cons]
    simp only [hfp, h0.2, Bool.false_eq_true, if_false,
      runHandlers_plain fenv entry rest fcache scache
        (fun ih hmem => hall ih (List.mem_cons_of_mem ih0 hmem))]
    simp

/-- When the dispatch loop raises a serialization error, it has
delivered to exactly the handlers strictly before some position `j`
(one payload each, in order), and the handler at `j` wants wire-format
data. -/
theorem runHandlers_err (fenv : Nat → Entry → Entry) (entry : Entry) :
    ∀ (L : List (Nat × Handler)) (fcache scache : List (Finset Nat × Option Entry)),
      (runHandlers fenv entry L fcache scache).2 = true →
      ∃ j, j < L.length ∧
        (runHandlers fenv entry L fcache scache).1.map Prod.fst =
          (L.take j).map Prod.fst ∧
        (L[j]?).map (fun ih => ih.2.JSON) = some true
  | [], fcache, scache, h => absurd h (by simp [runHandlers])
  | ih0 :: rest, fcache, scache, h => by
    by_cases hj : ih0.2.JSON = true
    · cases hsc : lookupKey ih0.2.filters.toFinset scache with
      | some se =>
        simp only [runHandlers_cons, hj, if_true, hsc] at h ⊢
        obtain ⟨j, hjlen, hmap, hget⟩ := runHandlers_err fenv entry rest
          (filterPhase fenv entry ih0.2 fcache).2 scache h
        refine ⟨j + 1, by simpa using hjlen, ?_, by simpa using hget⟩
        simpa using hmap
      | none =>
        cases hd : dumps (filterPhase fenv entry ih0.2 fcache).1 with
        | none =>
          exact ⟨0, by simp, by simp [runHandlers_cons, hj, hsc, hd], by simp [hj]⟩
        | some se =>
          simp only [runHandlers_cons, hj, if_true, hsc, hd] at h ⊢
          obtain ⟨j, hjlen, hmap, hget⟩ := runHandlers_err fenv entry rest
            (filterPhase fenv entry ih0.2 fcache).2
            ((ih0.2.filters.toFinset, se) :: scache) h
          refine ⟨j + 1, by simpa using hjlen, ?_, by simpa using hget⟩
          simpa using hmap
    · simp only [runHandlers_cons, hj, if_false] at h ⊢
      obtain ⟨j, hjlen, hmap, hget⟩ := runHandlers_err fenv entry rest
        (filterPhase fenv entry ih0.2 fcache).2 scache h
      refine ⟨j + 1, by simpa using hjlen, ?_, by simpa using hget⟩
      simpa using hmap

/-- C1 (code bug).  `_Logger.log` is supposed to hand each handler with
a non-empty filter list the result of the filter chain, but
`Handler.filter` has no `return` statement: at the concrete input of
one identity filter and the entry `a ↦ 1`, the raw-entry handler is
handed Python `None` and the wire-format handler is handed the
serialization of `None` (the text `null`), although the filter chain
applied to the entry yields the entry back — so the delivered value is
not the result of the filter chain. -/
theorem c1_filter_returns_none :
    (Logger.log (fun _ e => e)
        (LoggerState.mk (some 0) []
          [Handler.mk [0] false, Handler.mk [0] true])
        [("a", JVal.jint 1)]).2.1 =
      [(0, Payload.raw none), (1, Payload.wire none)] ∧
    chainApply (fun _ e => e) [0] [("a", JVal.jint 1)] = [("a", JVal.jint 1)] ∧
    Payload.raw none ≠ Payload.raw (some [("a", JVal.jint 1)]) := by
  refine ⟨rfl, rfl, ?_⟩
  intro hcontra
  simp at hcontra

/-- C2 counterexample.  With a raw-entry handler registered before a
wire-format handler and an entry containing a value with no wire
encoding, `log` raises the serialization failure — yet the first
handler's `log` method has already been invoked with the entry, so the
entry was partially delivered. -/
theorem c2_early_delivery_counterexample :
    (Logger.log (fun _ e => e)
        (LoggerState.mk (some 0) [] [Handler.mk [] false, Handler.mk [] true])
        [("x", JVal.jbad)]).2.2 = true ∧
    (Logger.log (fun _ e => e)
        (LoggerState.mk (some 0) [] [Handler.mk [] false, Handler.mk [] true])
        [("x", JVal.jbad)]).2.1 =
      [(0, Payload.raw (some [("x", JVal.jbad)]))] ∧
    (Logger.log (fun _ e => e)
        (LoggerState.mk (some 0) [] [Handler.mk [] false, Handler.mk [] true])
        [("x", JVal.jbad)]).2.1.length = 1 :=
  ⟨rfl, rfl, rfl⟩

/-- C2 (amended).  When `log` raises a serialization failure, the
failure reaches the caller synchronously and delivery stops at the
first handler whose serialization fails, which wants wire-format data:
that handler and all later ones receive nothing, while the handlers
strictly before it have each already received exactly one payload, in
registration order. -/
theorem c2_amended_serialization_failure (fenv : Nat → Entry → Entry)
    (st : LoggerState) (entry : Entry)
    (herr : (Logger.log fenv st entry).2.2 = true) :
    ∃ j, j < st.handlers.length ∧
      (Logger.log fenv st entry).2.1.map Prod.fst = List.range j ∧
      (st.handlers[j]?).map Handler.JSON = some true := by
  obtain ⟨j, hjlen, hmap, hget⟩ :=
    runHandlers_err fenv entry st.handlers.enum [] [] herr
  rw [List.enum_length] at hjlen
  refine ⟨j, hjlen, ?_, ?_⟩
  · show (runHandlers fenv entry st.handlers.enum [] []).1.map Prod.fst = _
    rw [hmap, List.map_take, List.enum_map_fst,
      List.take_range, Nat.min_eq_left (Nat.le_of_lt hjlen)]
  · rw [List.getElem?_enum] at hget
    cases hh : st.handlers[j]? with
    | none => rw [hh] at hget; simp at hget
    | some hdl => rw [hh] at hget; simpa using hget

/-- Witness for the amended C2 at the counterexample input. -/
theorem c2_amended_serialization_failure_witness :
    ∃ j, j < (LoggerState.mk (some 0) []
        [Handler.mk [] false, Handler.mk [] true] : LoggerState).handlers.length ∧
      (Logger.log (fun _ e => e)
          (LoggerState.mk (some 0) [] [Handler.mk [] false, Handler.mk [] true])
          [("x", JVal.jbad)]).2.1.map Prod.fst = List.range j ∧
      ((LoggerState.mk (some 0) []
          [Handler.mk [] false, Handler.mk [] true] : LoggerState).handlers[j]?).map
        Handler.JSON = some true :=
  c2_amended_serialization_failure (fun _ e => e)
    (LoggerState.mk (some 0) [] [Handler.mk [] false, Handler.mk [] true])
    [("x", JVal.jbad)] rfl

/-- Entries logged through handlers that never raise leave the
retention deque folded over bounded appends, and every handler receives
every entry. -/
theorem logMany_plain (fenv : Nat → Entry → Entry) (hs : List Handler)
    (hall : ∀ h ∈ hs, h.filters = [] ∧ h.JSON = false) :
    ∀ (es : List Entry) (m : Option Nat) (acc : List Entry),
      Logger.logMany fenv (LoggerState.mk m acc hs) es =
        (LoggerState.mk m (List.foldl (dequeAppend m) acc es) hs,
         es.map (fun e =>
           (hs.enum.map (fun ih => (ih.1, Payload.raw (some e))), false)))
  | [], m, acc => by simp [Logger.logMany]
  | e :: es, m, acc => by
    have henum : ∀ ih ∈ hs.enum, ih.2.filters = [] ∧ ih.2.JSON = false := by
      intro ih hmem
      rcases ih with ⟨i, hdl⟩
      rw [List.mk_mem_enum_iff_getElem?] at hmem
      exact hall hdl (List.getElem?_mem hmem)
    have hrun := runHandlers_plain fenv e hs.enum [] [] henum
    simp only [Logger.logMany, Logger.log, hrun]
    rw [logMany_plain fenv hs hall es m (dequeAppend m acc e)]
    rfl

/-- C10.  With the default retention bound `maxlen=0` the logger's
retention deque is permanently empty — after any sequence of `log`
calls its length is 0 and indexing fails at every integer index — even
though every registered (plain) handler still receives every entry;
and in general with bound `m` the deque holds exactly the last
`min m N` of the `N` logged entries. -/
theorem c10_retention_buffer (fenv : Nat → Entry → Entry) (hs : List Handler)
    (es : List Entry) (hall : ∀ h ∈ hs, h.filters = [] ∧ h.JSON = false) :
    (Logger.logMany fenv (LoggerState.mk (some 0) [] hs) es).1.entries = [] ∧
    (Logger.logMany fenv (LoggerState.mk (some 0) [] hs) es).1.entries.length = 0 ∧
    (∀ k : Int,
      Logger.getItem (Logger.logMany fenv (LoggerState.mk (some 0) [] hs) es).1 k =
        none) ∧
    (Logger.logMany fenv (LoggerState.mk (some 0) [] hs) es).2 =
      es.map (fun e =>
        (hs.enum.map (fun ih => (ih.1, Payload.raw (some e))), false)) ∧
    ∀ m : Nat,
      (Logger.logMany fenv (LoggerState.mk (some m) [] hs) es).1.entries =
        es.drop (es.length - m) ∧
      (Logger.logMany fenv (LoggerState.mk (some m) [] hs) es).1.entries.length =
        min m es.length := by
  have hzero : (Logger.logMany fenv (LoggerState.mk (some 0) [] hs) es).1.entries = [] := by
    rw [logMany_plain fenv hs hall es (some 0) [], foldl_dequeAppend_nil]
    simp
  refine ⟨hzero, by rw [hzero]; rfl, ?_, ?_, ?_⟩
  · intro k
    rw [Logger.getItem, hzero]
    simp only [List.length_nil, Nat.cast_zero]
    have h1 : ¬(0 ≤ k ∧ k < (0 : Int)) := by omega
    have h2 : ¬(-(0 : Int) ≤ k ∧ k < 0) := by omega
    rw [if_neg h1, if_neg h2]
  · rw [logMany_plain fenv hs hall es (some 0) []]
  · intro m
    rw [logMany_plain fenv hs hall es (some m) [], foldl_dequeAppend_nil]
    refine ⟨rfl, ?_⟩
    rw [List.length_drop]
    omega

/-- Witness for C10 with one plain print handler and two entries. -/
theorem c10_retention_buffer_witness :
    (Logger.logMany (fun _ e => e)
        (LoggerState.mk (some 0) [] [Handler.mk [] false])
        [[("a", JVal.jint 1)], [("a", JVal.jint 2)]]).1.entries = [] :=
  (c10_retention_buffer (fun _ e => e) [Handler.mk [] false]
    [[("a", JVal.jint 1)], [("a", JVal.jint 2)]]
    (by
      intro h hm
      rw [List.mem_singleton] at hm
      subst hm
      exact ⟨rfl, rfl⟩)).1

end Mimir
